import Mathlib

/-!
Shallow embedding of the query-plan compiler in `src/planner/build.rs`
(`BuildEnv` and `QueryPlan::new`), together with theorems about the claims
of the specification.

The AST types (`ast::Query`, `ast::MatchClause`, `ast::Node`, `ast::Edge`,
`ast::Direction`, `ast::Annotation`) and the plan types (`MatchStep`,
`Filter`, `NamedValue`, `QueryPlan`) are declared in sibling modules of the
repository (`parser/ast.rs`, `planner/plan.rs`); their shapes are fully
determined by their uses in `build.rs` and by the spec's data model (§3).
`Filter::or` / `Filter::and` are the stateless structural constructors of
spec §4.3. The Rust field `annotation` is rendered as `ann` here.
WHERE clauses are opaque to the planner, so they are modelled as `Unit`.
Identifiers (`usize`) are modelled as `Nat`; the counter never overflows in
scope of these claims, matching the spec's "opaque non-negative integer".
-/

namespace CQLite

/-- Edge direction in a pattern, `ast::Direction`. -/
inductive Direction
  | Left
  | Right
  | Either
deriving DecidableEq

/-- `ast::Annotation`: optional variable name and optional label of a
pattern element (Rust field name: `annotation`). -/
structure Annot where
  name : Option String
  label : Option String
deriving DecidableEq

/-- `ast::Node`: a node pattern, carrying its annotation. -/
structure NodePat where
  ann : Annot
deriving DecidableEq

/-- `ast::Edge`: an edge pattern, carrying its annotation and direction. -/
structure EdgePat where
  ann : Annot
  direction : Direction
deriving DecidableEq

/-- `ast::MatchClause`: a start node plus a chain of (edge, node) segments. -/
structure MatchClause where
  start : NodePat
  edges : List (EdgePat × NodePat)
deriving DecidableEq

/-- `ast::Query`: MATCH clauses, WHERE clauses (opaque here), RETURN names. -/
structure Query where
  match_clauses : List MatchClause
  where_clauses : List Unit
  return_clause : List String
deriving DecidableEq

/-- `NamedValue` from `planner/plan.rs`: a typed binding, a node identifier
or an edge identifier. -/
inductive NamedValue
  | Node (id : Nat)
  | Edge (id : Nat)
deriving DecidableEq

/-- The identifier carried by a `NamedValue`. -/
def NamedValue.id : NamedValue → Nat
  | .Node n => n
  | .Edge n => n

/-- The planner's error type (`crate::Error`); `build.rs` only ever produces
the placeholder variant `Error::Todo`. -/
inductive Error
  | Todo
deriving DecidableEq

/-- Boolean filter expression tree from `planner/plan.rs` (spec §3, §4.3). -/
inductive Filter
  | And (lhs rhs : Filter)
  | Or (lhs rhs : Filter)
  | NodeHasLabel (node : Nat) (label : String)
  | EdgeHasLabel (edge : Nat) (label : String)
  | IsOrigin (node : Nat) (edge : Nat)
  | IsTarget (node : Nat) (edge : Nat)
deriving DecidableEq

/-- Modelled from the spec: `Filter::or` (plan.rs is not under src/), the
stateless structural disjunction constructor of §4.3. -/
def Filter.or (a b : Filter) : Filter := .Or a b

/-- Modelled from the spec: `Filter::and` (plan.rs is not under src/), the
stateless structural conjunction constructor of §4.3. -/
def Filter.and (a b : Filter) : Filter := .And a b

/-- `MatchStep` from `planner/plan.rs`: one plan instruction (spec §3).
Load steps introduce the identifier in their `name` field; `Filter` steps
prune. -/
inductive MatchStep
  | LoadAnyNode (name : Nat)
  | LoadOriginNode (name : Nat) (edge : Nat)
  | LoadTargetNode (name : Nat) (edge : Nat)
  | LoadOtherNode (name : Nat) (node : Nat) (edge : Nat)
  | LoadOriginEdge (name : Nat) (node : Nat)
  | LoadTargetEdge (name : Nat) (node : Nat)
  | LoadEitherEdge (name : Nat) (node : Nat)
  | Filter (f : Filter)
deriving DecidableEq

/-- `QueryPlan` from `planner/plan.rs`: step sequence plus resolved RETURN
bindings. -/
structure QueryPlan where
  steps : List MatchStep
  returns : List NamedValue
deriving DecidableEq

/-- First-match association lookup: the model of `HashMap::get` on
`BuildEnv::names` (keys are inserted at most once, so first match is the
unique match). -/
def lookupNames : List (String × NamedValue) → String → Option NamedValue
  | [], _ => none
  | (m, v) :: rest, n => if m = n then some v else lookupNames rest n

/-- `BuildEnv` (build.rs lines 7-10): the binding scope `names` plus the
monotonic identifier counter `next_name`. -/
structure BuildEnv where
  names : List (String × NamedValue)
  next_name : Nat
deriving DecidableEq

/-- `BuildEnv::new()`. -/
def BuildEnv.empty : BuildEnv := ⟨[], 0⟩

/-- `self.names.get(name)` on a `BuildEnv`. -/
def BuildEnv.lookup (env : BuildEnv) (n : String) : Option NamedValue :=
  lookupNames env.names n

/-- `BuildEnv::next_name(&mut self)` (build.rs lines 20-23): return the
current counter value and increment the counter. -/
def BuildEnv.alloc (env : BuildEnv) : Nat × BuildEnv :=
  (env.next_name, { env with next_name := env.next_name + 1 })

/-- `BuildEnv::get_node` (build.rs lines 25-31). -/
def BuildEnv.get_node (env : BuildEnv) (n : String) : Except Error (Option Nat) :=
  match env.lookup n with
  | some (.Node id) => .ok (some id)
  | some (.Edge _) => .error .Todo
  | none => .ok none

/-- `BuildEnv::get_edge` (build.rs lines 33-39). -/
def BuildEnv.get_edge (env : BuildEnv) (n : String) : Except Error (Option Nat) :=
  match env.lookup n with
  | some (.Node _) => .error .Todo
  | some (.Edge id) => .ok (some id)
  | none => .ok none

/-- `BuildEnv::create_node` (build.rs lines 41-51). -/
def BuildEnv.create_node (env : BuildEnv) (n : String) :
    Except Error (Nat × BuildEnv) :=
  match env.lookup n with
  | some (.Node id) => .ok (id, env)
  | some (.Edge _) => .error .Todo
  | none =>
    let p := env.alloc
    .ok (p.1, { p.2 with names := (n, NamedValue.Node p.1) :: p.2.names })

/-- `BuildEnv::create_edge` (build.rs lines 53-63). -/
def BuildEnv.create_edge (env : BuildEnv) (n : String) :
    Except Error (Nat × BuildEnv) :=
  match env.lookup n with
  | some (.Node _) => .error .Todo
  | some (.Edge id) => .ok (id, env)
  | none =>
    let p := env.alloc
    .ok (p.1, { p.2 with names := (n, NamedValue.Edge p.1) :: p.2.names })

/-- Start-node resolution of `QueryPlan::new` (build.rs lines 79-91): the
binding of the clause's start node, without its label filter. Returns the
`prev_node_name`, the updated environment, and the emitted steps. -/
def compileStartNode (env : BuildEnv) (start : NodePat) :
    Except Error (Nat × BuildEnv × List MatchStep) :=
  match start.ann.name with
  | some n =>
    match env.get_node n with
    | .error e => .error e
    | .ok (some id) => .ok (id, env, [])
    | .ok none =>
      match env.create_node n with
      | .error e => .error e
      | .ok (id, env1) => .ok (id, env1, [MatchStep.LoadAnyNode id])
  | none =>
    let p := env.alloc
    .ok (p.1, p.2, [MatchStep.LoadAnyNode p.1])

/-- Edge resolution of `QueryPlan::new` (build.rs lines 101-163): the
binding of a segment's edge, without its label filter. -/
def compileEdgePart (env : BuildEnv) (prev : Nat) (edge : EdgePat) :
    Except Error (Nat × BuildEnv × List MatchStep) :=
  match edge.ann.name with
  | some n =>
    match env.get_edge n with
    | .error e => .error e
    | .ok (some id) =>
      .ok (id, env,
        [MatchStep.Filter (match edge.direction with
          | .Left => Filter.IsTarget prev id
          | .Right => Filter.IsOrigin prev id
          | .Either => Filter.or (Filter.IsOrigin prev id) (Filter.IsTarget prev id))])
    | .ok none =>
      match env.create_edge n with
      | .error e => .error e
      | .ok (id, env1) =>
        .ok (id, env1,
          [match edge.direction with
           | .Left => MatchStep.LoadTargetEdge id prev
           | .Right => MatchStep.LoadOriginEdge id prev
           | .Either => MatchStep.LoadEitherEdge id prev])
  | none =>
    let p := env.alloc
    .ok (p.1, p.2,
      [match edge.direction with
       | .Left => MatchStep.LoadTargetEdge p.1 prev
       | .Right => MatchStep.LoadOriginEdge p.1 prev
       | .Either => MatchStep.LoadEitherEdge p.1 prev])

/-- End-node resolution of `QueryPlan::new` (build.rs lines 172-248): the
binding of a segment's end node given the edge identifier and direction,
without its label filter. -/
def compileNodePart (env : BuildEnv) (prev edge_id : Nat) (dir : Direction)
    (node : NodePat) : Except Error (Nat × BuildEnv × List MatchStep) :=
  match node.ann.name with
  | some n =>
    match env.get_node n with
    | .error e => .error e
    | .ok (some id) =>
      .ok (id, env,
        [MatchStep.Filter (match dir with
          | .Left => Filter.IsOrigin id edge_id
          | .Right => Filter.IsTarget id edge_id
          | .Either => Filter.or
              (Filter.and (Filter.IsOrigin id edge_id) (Filter.IsTarget prev edge_id))
              (Filter.and (Filter.IsTarget id edge_id) (Filter.IsOrigin prev edge_id)))])
    | .ok none =>
      match env.create_node n with
      | .error e => .error e
      | .ok (id, env1) =>
        .ok (id, env1,
          [match dir with
           | .Left => MatchStep.LoadOriginNode id edge_id
           | .Right => MatchStep.LoadTargetNode id edge_id
           | .Either => MatchStep.LoadOtherNode id prev edge_id])
  | none =>
    let p := env.alloc
    .ok (p.1, p.2,
      [match dir with
       | .Left => MatchStep.LoadOriginNode p.1 edge_id
       | .Right => MatchStep.LoadTargetNode p.1 edge_id
       | .Either => MatchStep.LoadOtherNode p.1 prev edge_id])

/-- The node-label filter step emitted right after resolving a node
(build.rs lines 93-98 and 250-255). -/
def nodeLabelSteps (id : Nat) : Option String → List MatchStep
  | some lab => [MatchStep.Filter (Filter.NodeHasLabel id lab)]
  | none => []

/-- The edge-label filter step emitted right after resolving an edge
(build.rs lines 165-170). -/
def edgeLabelSteps (id : Nat) : Option String → List MatchStep
  | some lab => [MatchStep.Filter (Filter.EdgeHasLabel id lab)]
  | none => []

/-- One (edge, node) segment of the loop body of `QueryPlan::new`
(build.rs lines 100-256): edge steps, edge label filter, end-node steps,
end-node label filter, in source order. Returns the new `prev_node_name`. -/
def compileSegment (env : BuildEnv) (prev : Nat) (seg : EdgePat × NodePat) :
    Except Error (Nat × BuildEnv × List MatchStep) :=
  match compileEdgePart env prev seg.1 with
  | .error e => .error e
  | .ok (eid, env1, s1) =>
    match compileNodePart env1 prev eid seg.1.direction seg.2 with
    | .error e => .error e
    | .ok (nid, env2, s3) =>
      .ok (nid, env2,
        s1 ++ edgeLabelSteps eid seg.1.ann.label ++ s3 ++ nodeLabelSteps nid seg.2.ann.label)

/-- The inner loop of `QueryPlan::new` over a clause's segments, threading
`prev_node_name`. -/
def compileSegments (env : BuildEnv) (prev : Nat) :
    List (EdgePat × NodePat) → Except Error (Nat × BuildEnv × List MatchStep)
  | [] => .ok (prev, env, [])
  | seg :: rest =>
    match compileSegment env prev seg with
    | .error e => .error e
    | .ok (p, env1, s) =>
      match compileSegments env1 p rest with
      | .error e => .error e
      | .ok (p2, env2, s2) => .ok (p2, env2, s ++ s2)

/-- One MATCH clause of `QueryPlan::new` (build.rs lines 78-257): start
node, start label filter, then the segments. -/
def compileClause (env : BuildEnv) (c : MatchClause) :
    Except Error (BuildEnv × List MatchStep) :=
  match compileStartNode env c.start with
  | .error e => .error e
  | .ok (prev, env1, s0) =>
    match compileSegments env1 prev c.edges with
    | .error e => .error e
    | .ok (_, env2, s1) =>
      .ok (env2, s0 ++ nodeLabelSteps prev c.start.ann.label ++ s1)

/-- The outer loop of `QueryPlan::new` over all MATCH clauses, sharing one
environment. -/
def compileClauses (env : BuildEnv) :
    List MatchClause → Except Error (BuildEnv × List MatchStep)
  | [] => .ok (env, [])
  | c :: rest =>
    match compileClause env c with
    | .error e => .error e
    | .ok (env1, s) =>
      match compileClauses env1 rest with
      | .error e => .error e
      | .ok (env2, s2) => .ok (env2, s ++ s2)

/-- RETURN resolution of `QueryPlan::new` (build.rs lines 259-262):
`env.names.get(name).ok_or(Error::Todo)` for each name, in order. -/
def resolveReturns (env : BuildEnv) : List String → Except Error (List NamedValue)
  | [] => .ok []
  | n :: rest =>
    match env.lookup n with
    | none => .error .Todo
    | some v =>
      match resolveReturns env rest with
      | .error e => .error e
      | .ok vs => .ok (v :: vs)

/-- `QueryPlan::new` (build.rs lines 67-265). -/
def QueryPlan.new (q : Query) : Except Error QueryPlan :=
  if q.match_clauses.isEmpty && !q.where_clauses.isEmpty then .error .Todo
  else if q.match_clauses.isEmpty && !q.return_clause.isEmpty then .error .Todo
  else
    match compileClauses BuildEnv.empty q.match_clauses with
    | .error e => .error e
    | .ok (env, steps) =>
      match resolveReturns env q.return_clause with
      | .error e => .error e
      | .ok returns => .ok ⟨steps, returns⟩

/-- The identifier a step introduces: Load steps introduce their `name`
field, `Filter` steps introduce nothing (spec §3). -/
def MatchStep.introduces : MatchStep → Option Nat
  | .LoadAnyNode n => some n
  | .LoadOriginNode n _ => some n
  | .LoadTargetNode n _ => some n
  | .LoadOtherNode n _ _ => some n
  | .LoadOriginEdge n _ => some n
  | .LoadTargetEdge n _ => some n
  | .LoadEitherEdge n _ => some n
  | .Filter _ => none

/-- All identifiers a filter expression refers to. -/
def Filter.refs : Filter → List Nat
  | .And a b => a.refs ++ b.refs
  | .Or a b => a.refs ++ b.refs
  | .NodeHasLabel n _ => [n]
  | .EdgeHasLabel e _ => [e]
  | .IsOrigin n e => [n, e]
  | .IsTarget n e => [n, e]

/-- All identifiers a step references (anchors of Load steps, operands of
filters) — not counting the identifier it introduces. -/
def MatchStep.refs : MatchStep → List Nat
  | .LoadAnyNode _ => []
  | .LoadOriginNode _ e => [e]
  | .LoadTargetNode _ e => [e]
  | .LoadOtherNode _ n e => [n, e]
  | .LoadOriginEdge _ n => [n]
  | .LoadTargetEdge _ n => [n]
  | .LoadEitherEdge _ n => [n]
  | .Filter f => f.refs

/-- The identifiers introduced by the Load steps of a step list, in step
order. -/
def introducedIds (steps : List MatchStep) : List Nat :=
  steps.filterMap MatchStep.introduces

/-- Forward-reference discipline relative to a set of already-introduced
identifiers: each step references only identifiers introduced by a strictly
earlier step (or already present in `intro`). -/
def stepsWFAux (intro : List Nat) : List MatchStep → Bool
  | [] => true
  | s :: rest =>
    (MatchStep.refs s).all (fun r => decide (r ∈ intro)) &&
      stepsWFAux (intro ++ (MatchStep.introduces s).toList) rest

/-- Spec invariant 1: every identifier referenced by any step was introduced
by a strictly earlier Load step of the same list. -/
def stepsWF (steps : List MatchStep) : Bool := stepsWFAux [] steps

/-- Whether a step list contains any `Filter` step. -/
def hasFilterStep (steps : List MatchStep) : Bool :=
  steps.any fun s =>
    match s with
    | .Filter _ => true
    | _ => false

/-- The variable names occurring in node position in one MATCH clause. -/
def clauseNodeNames (c : MatchClause) : List String :=
  c.start.ann.name.toList ++ c.edges.filterMap (fun seg => seg.2.ann.name)

/-- The variable names occurring in edge position in one MATCH clause. -/
def clauseEdgeNames (c : MatchClause) : List String :=
  c.edges.filterMap (fun seg => seg.1.ann.name)

/-- The variable names occurring in node position anywhere in the query's
MATCH clauses. -/
def queryNodeNames (q : Query) : List String :=
  (q.match_clauses.map clauseNodeNames).flatten

/-- The variable names occurring in edge position anywhere in the query's
MATCH clauses. -/
def queryEdgeNames (q : Query) : List String :=
  (q.match_clauses.map clauseEdgeNames).flatten

/-- Environment extension: the counter never decreases and existing
bindings survive. -/
def EnvLe (env env' : BuildEnv) : Prop :=
  env.next_name ≤ env'.next_name ∧
    ∀ n v, env.lookup n = some v → env'.lookup n = some v

/-- Master compilation invariant tying an environment to the list of
identifiers introduced so far: introduced identifiers stay below the
counter, grow strictly, and every binding's identifier has been introduced
by a Load. -/
def Inv (env : BuildEnv) (intro : List Nat) : Prop :=
  (∀ i ∈ intro, i < env.next_name) ∧
    List.Pairwise (· < ·) intro ∧
    ∀ p ∈ env.names, NamedValue.id p.2 ∈ intro

/-- The query `MATCH (a)-[e]->(b) RETURN a,e,b`, for witnesses. -/
def exQueryC1 : Query :=
  ⟨[⟨⟨⟨some "a", none⟩⟩,
     [(⟨⟨some "e", none⟩, Direction.Right⟩, ⟨⟨some "b", none⟩⟩)]⟩],
   [], ["a", "e", "b"]⟩

/-- The query `MATCH (a) MATCH (a)` with empty RETURN: the second clause
reuses `a` (same kind) as its start node. -/
def reuseStartQuery : Query :=
  ⟨[⟨⟨⟨some "a", none⟩⟩, []⟩, ⟨⟨⟨some "a", none⟩⟩, []⟩], [], []⟩

/-- The query `MATCH (x)-[x]->(y)`: `x` is first bound as a node and then
used as an edge. -/
def conflictQuery : Query :=
  ⟨[⟨⟨⟨some "x", none⟩⟩,
     [(⟨⟨some "x", none⟩, Direction.Right⟩, ⟨⟨some "y", none⟩⟩)]⟩], [], []⟩

/-- The query `MATCH (a) RETURN z`: `z` is never bound by a MATCH clause. -/
def returnUnboundQuery : Query :=
  ⟨[⟨⟨⟨some "a", none⟩⟩, []⟩], [], ["z"]⟩

end CQLite

namespace CQLite

lemma introducedIds_cons (a : MatchStep) (s : List MatchStep) :
    introducedIds (a :: s) = (MatchStep.introduces a).toList ++ introducedIds s := by
  cases h : MatchStep.introduces a <;> simp [introducedIds, List.filterMap_cons, h]

lemma introducedIds_append (s t : List MatchStep) :
    introducedIds (s ++ t) = introducedIds s ++ introducedIds t := by
  simp [introducedIds, List.filterMap_append]

lemma stepsWFAux_append (s t : List MatchStep) (intro : List Nat) :
    stepsWFAux intro (s ++ t) =
      (stepsWFAux intro s && stepsWFAux (intro ++ introducedIds s) t) := by
  induction s generalizing intro with
  | nil => simp [stepsWFAux, introducedIds]
  | cons a s ih =>
    simp only [List.cons_append, stepsWFAux, List.append_eq, ih,
      introducedIds_cons, List.append_assoc, Bool.and_assoc]

lemma lookupNames_cons (m : String) (v : NamedValue)
    (l : List (String × NamedValue)) (n : String) :
    lookupNames ((m, v) :: l) n = if m = n then some v else lookupNames l n := rfl

lemma lookupNames_mem (l : List (String × NamedValue)) (n : String)
    (v : NamedValue) (h : lookupNames l n = some v) : (n, v) ∈ l := by
  induction l with
  | nil => simp [lookupNames] at h
  | cons p l ih =>
    obtain ⟨m, w⟩ := p
    rw [lookupNames_cons] at h
    by_cases hm : m = n
    · rw [if_pos hm] at h
      cases h
      subst hm
      exact List.mem_cons_self _ _
    · rw [if_neg hm] at h
      exact List.mem_cons_of_mem _ (ih h)

lemma lookupNames_insert (l : List (String × NamedValue)) (m n : String)
    (w v : NamedValue) (hm : lookupNames l m = none)
    (h : lookupNames l n = some v) :
    lookupNames ((m, w) :: l) n = some v := by
  rw [lookupNames_cons]
  by_cases hmn : m = n
  · subst hmn
    rw [hm] at h
    cases h
  · rw [if_neg hmn]
    exact h

lemma EnvLe.rfl (env : BuildEnv) : EnvLe env env :=
  ⟨le_refl _, fun _ _ h => h⟩

lemma EnvLe.trans {e1 e2 e3 : BuildEnv} (h1 : EnvLe e1 e2) (h2 : EnvLe e2 e3) :
    EnvLe e1 e3 :=
  ⟨le_trans h1.1 h2.1, fun n v h => h2.2 n v (h1.2 n v h)⟩

lemma get_node_ok_some (env : BuildEnv) (n : String) (id : Nat)
    (h : env.get_node n = .ok (some id)) :
    env.lookup n = some (NamedValue.Node id) := by
  unfold BuildEnv.get_node at h
  cases hl : env.lookup n with
  | none => rw [hl] at h; cases h
  | some v =>
    cases v with
    | Node i => rw [hl] at h; cases h; rfl
    | Edge i => rw [hl] at h; cases h

lemma get_node_ok_none (env : BuildEnv) (n : String)
    (h : env.get_node n = .ok none) : env.lookup n = none := by
  unfold BuildEnv.get_node at h
  cases hl : env.lookup n with
  | none => rfl
  | some v =>
    cases v with
    | Node i => rw [hl] at h; cases h
    | Edge i => rw [hl] at h; cases h

lemma get_edge_ok_some (env : BuildEnv) (n : String) (id : Nat)
    (h : env.get_edge n = .ok (some id)) :
    env.lookup n = some (NamedValue.Edge id) := by
  unfold BuildEnv.get_edge at h
  cases hl : env.lookup n with
  | none => rw [hl] at h; cases h
  | some v =>
    cases v with
    | Node i => rw [hl] at h; cases h
    | Edge i => rw [hl] at h; cases h; rfl

lemma get_edge_ok_none (env : BuildEnv) (n : String)
    (h : env.get_edge n = .ok none) : env.lookup n = none := by
  unfold BuildEnv.get_edge at h
  cases hl : env.lookup n with
  | none => rfl
  | some v =>
    cases v with
    | Node i => rw [hl] at h; cases h
    | Edge i => rw [hl] at h; cases h

lemma create_node_of_none (env : BuildEnv) (n : String)
    (h : env.lookup n = none) :
    env.create_node n = .ok (env.next_name,
      ⟨(n, NamedValue.Node env.next_name) :: env.names, env.next_name + 1⟩) := by
  unfold BuildEnv.create_node
  rw [h]
  rfl

lemma create_edge_of_none (env : BuildEnv) (n : String)
    (h : env.lookup n = none) :
    env.create_edge n = .ok (env.next_name,
      ⟨(n, NamedValue.Edge env.next_name) :: env.names, env.next_name + 1⟩) := by
  unfold BuildEnv.create_edge
  rw [h]
  rfl

lemma pairwise_append_lt (intro : List Nat) (k : Nat)
    (hb : ∀ i ∈ intro, i < k) (hp : List.Pairwise (· < ·) intro) :
    List.Pairwise (· < ·) (intro ++ [k]) := by
  rw [List.pairwise_append]
  refine ⟨hp, List.pairwise_singleton _ _, ?_⟩
  intro a ha b hb'
  simp only [List.mem_singleton] at hb'
  subst hb'
  exact hb a ha

/-- Extending the invariant by a fresh anonymous identifier plus its Load. -/
lemma Inv.extend_anon (env : BuildEnv) (intro : List Nat) (hinv : Inv env intro) :
    Inv { env with next_name := env.next_name + 1 } (intro ++ [env.next_name]) := by
  obtain ⟨hb, hp, hm⟩ := hinv
  refine ⟨?_, pairwise_append_lt intro env.next_name hb hp, ?_⟩
  · intro i hi
    rcases List.mem_append.mp hi with hi | hi
    · exact Nat.lt_succ_of_lt (hb i hi)
    · simp only [List.mem_singleton] at hi
      subst hi
      exact Nat.lt_succ_self _
  · intro p hp'
    exact List.mem_append_left _ (hm p hp')

/-- Extending the invariant by a fresh named identifier, its binding, and
its Load. -/
lemma Inv.extend_bind (env : BuildEnv) (intro : List Nat) (n : String)
    (v : NamedValue) (hinv : Inv env intro) (hv : NamedValue.id v = env.next_name) :
    Inv ⟨(n, v) :: env.names, env.next_name + 1⟩ (intro ++ [env.next_name]) := by
  obtain ⟨hb, hp, hm⟩ := hinv
  refine ⟨?_, pairwise_append_lt intro env.next_name hb hp, ?_⟩
  · intro i hi
    rcases List.mem_append.mp hi with hi | hi
    · exact Nat.lt_succ_of_lt (hb i hi)
    · simp only [List.mem_singleton] at hi
      subst hi
      exact Nat.lt_succ_self _
  · intro p hp'
    rcases List.mem_cons.mp hp' with hp' | hp'
    · subst hp'
      simp only [hv]
      exact List.mem_append_right _ (List.mem_singleton.mpr (Eq.refl _))
    · exact List.mem_append_left _ (hm p hp')

lemma introducedIds_nil : introducedIds [] = [] := rfl

lemma edgeLabelSteps_intro (id : Nat) (lab : Option String) :
    introducedIds (edgeLabelSteps id lab) = [] := by
  cases lab <;>
    simp [edgeLabelSteps, introducedIds_cons, introducedIds_nil, MatchStep.introduces]

lemma nodeLabelSteps_intro (id : Nat) (lab : Option String) :
    introducedIds (nodeLabelSteps id lab) = [] := by
  cases lab <;>
    simp [nodeLabelSteps, introducedIds_cons, introducedIds_nil, MatchStep.introduces]

lemma edgeLabelSteps_wf (id : Nat) (lab : Option String) (intro : List Nat)
    (h : id ∈ intro) : stepsWFAux intro (edgeLabelSteps id lab) = true := by
  cases lab <;> simp [edgeLabelSteps, stepsWFAux, MatchStep.refs, Filter.refs, h]

lemma nodeLabelSteps_wf (id : Nat) (lab : Option String) (intro : List Nat)
    (h : id ∈ intro) : stepsWFAux intro (nodeLabelSteps id lab) = true := by
  cases lab <;> simp [nodeLabelSteps, stepsWFAux, MatchStep.refs, Filter.refs, h]

/-- Invariant propagation through start-node resolution. -/
lemma compileStartNode_inv (env env' : BuildEnv) (start : NodePat) (id : Nat)
    (s : List MatchStep) (intro : List Nat)
    (hinv : Inv env intro)
    (h : compileStartNode env start = .ok (id, env', s)) :
    Inv env' (intro ++ introducedIds s) ∧ id ∈ intro ++ introducedIds s ∧
      stepsWFAux intro s = true ∧ EnvLe env env' := by
  unfold compileStartNode at h
  cases hn : start.ann.name with
  | none =>
    simp only [hn] at h
    simp only [BuildEnv.alloc, Except.ok.injEq, Prod.mk.injEq] at h
    obtain ⟨h1, h2, h3⟩ := h
    subst h1; subst h2; subst h3
    refine ⟨?_, ?_, ?_, ?_⟩
    · simpa [introducedIds_cons, introducedIds_nil, MatchStep.introduces]
        using Inv.extend_anon env intro hinv
    · simp [introducedIds_cons, introducedIds_nil, MatchStep.introduces]
    · simp [stepsWFAux, MatchStep.refs]
    · exact ⟨Nat.le_succ _, fun n v hv => hv⟩
  | some n =>
    simp only [hn] at h
    cases hg : env.get_node n with
    | error e => simp only [hg] at h; cases h
    | ok o =>
      cases o with
      | some id0 =>
        simp only [hg] at h
        simp only [Except.ok.injEq, Prod.mk.injEq] at h
        obtain ⟨h1, h2, h3⟩ := h
        subst h1; subst h2; subst h3
        have hmem : id0 ∈ intro := by
          have := lookupNames_mem env.names n _ (get_node_ok_some env n id0 hg)
          simpa [NamedValue.id] using hinv.2.2 _ this
        refine ⟨?_, ?_, ?_, EnvLe.rfl env⟩
        · simpa [introducedIds_nil] using hinv
        · simp [introducedIds_nil, hmem]
        · rfl
      | none =>
        simp only [hg] at h
        have hl : env.lookup n = none := get_node_ok_none env n hg
        simp only [create_node_of_none env n hl] at h
        simp only [Except.ok.injEq, Prod.mk.injEq] at h
        obtain ⟨h1, h2, h3⟩ := h
        subst h1; subst h2; subst h3
        refine ⟨?_, ?_, ?_, ?_⟩
        · simpa [introducedIds_cons, introducedIds_nil, MatchStep.introduces]
            using Inv.extend_bind env intro n (NamedValue.Node env.next_name) hinv rfl
        · simp [introducedIds_cons, introducedIds_nil, MatchStep.introduces]
        · simp [stepsWFAux, MatchStep.refs]
        · exact ⟨Nat.le_succ _,
            fun m v hv => lookupNames_insert env.names n m _ v hl hv⟩

/-- Invariant propagation through edge resolution. -/
lemma compileEdgePart_inv (env env' : BuildEnv) (prev : Nat) (edge : EdgePat)
    (id : Nat) (s : List MatchStep) (intro : List Nat)
    (hinv : Inv env intro) (hprev : prev ∈ intro)
    (h : compileEdgePart env prev edge = .ok (id, env', s)) :
    Inv env' (intro ++ introducedIds s) ∧ id ∈ intro ++ introducedIds s ∧
      stepsWFAux intro s = true ∧ EnvLe env env' := by
  unfold compileEdgePart at h
  cases hn : edge.ann.name with
  | none =>
    simp only [hn] at h
    simp only [BuildEnv.alloc, Except.ok.injEq, Prod.mk.injEq] at h
    obtain ⟨h1, h2, h3⟩ := h
    subst h1; subst h2; subst h3
    refine ⟨?_, ?_, ?_, ⟨Nat.le_succ _, fun n v hv => hv⟩⟩ <;>
      cases edge.direction <;>
        first
        | simpa [introducedIds_cons, introducedIds_nil, MatchStep.introduces]
            using Inv.extend_anon env intro hinv
        | simp [introducedIds_cons, introducedIds_nil, MatchStep.introduces,
            stepsWFAux, MatchStep.refs, hprev]
  | some n =>
    simp only [hn] at h
    cases hg : env.get_edge n with
    | error e => simp only [hg] at h; cases h
    | ok o =>
      cases o with
      | some id0 =>
        simp only [hg] at h
        simp only [Except.ok.injEq, Prod.mk.injEq] at h
        obtain ⟨h1, h2, h3⟩ := h
        subst h1; subst h2; subst h3
        have hmem : id0 ∈ intro := by
          have := lookupNames_mem env.names n _ (get_edge_ok_some env n id0 hg)
          simpa [NamedValue.id] using hinv.2.2 _ this
        refine ⟨?_, ?_, ?_, EnvLe.rfl env⟩
        · simpa [introducedIds_cons, introducedIds_nil, MatchStep.introduces]
            using hinv
        · simp [introducedIds_cons, introducedIds_nil, MatchStep.introduces, hmem]
        · cases edge.direction <;>
            simp [stepsWFAux, MatchStep.refs, Filter.refs, Filter.or,
              hprev, hmem]
      | none =>
        simp only [hg] at h
        have hl : env.lookup n = none := get_edge_ok_none env n hg
        simp only [create_edge_of_none env n hl] at h
        simp only [Except.ok.injEq, Prod.mk.injEq] at h
        obtain ⟨h1, h2, h3⟩ := h
        subst h1; subst h2; subst h3
        refine ⟨?_, ?_, ?_,
          ⟨Nat.le_succ _, fun m v hv => lookupNames_insert env.names n m _ v hl hv⟩⟩ <;>
          cases edge.direction <;>
            first
            | simpa [introducedIds_cons, introducedIds_nil, MatchStep.introduces]
                using Inv.extend_bind env intro n (NamedValue.Edge env.next_name) hinv rfl
            | simp [introducedIds_cons, introducedIds_nil, MatchStep.introduces,
                stepsWFAux, MatchStep.refs, hprev]

/-- Invariant propagation through end-node resolution. -/
lemma compileNodePart_inv (env env' : BuildEnv) (prev edge_id : Nat)
    (dir : Direction) (node : NodePat) (id : Nat) (s : List MatchStep)
    (intro : List Nat)
    (hinv : Inv env intro) (hprev : prev ∈ intro) (hedge : edge_id ∈ intro)
    (h : compileNodePart env prev edge_id dir node = .ok (id, env', s)) :
    Inv env' (intro ++ introducedIds s) ∧ id ∈ intro ++ introducedIds s ∧
      stepsWFAux intro s = true ∧ EnvLe env env' := by
  unfold compileNodePart at h
  cases hn : node.ann.name with
  | none =>
    simp only [hn] at h
    simp only [BuildEnv.alloc, Except.ok.injEq, Prod.mk.injEq] at h
    obtain ⟨h1, h2, h3⟩ := h
    subst h1; subst h2; subst h3
    refine ⟨?_, ?_, ?_, ⟨Nat.le_succ _, fun n v hv => hv⟩⟩ <;>
      cases dir <;>
        first
        | simpa [introducedIds_cons, introducedIds_nil, MatchStep.introduces]
            using Inv.extend_anon env intro hinv
        | simp [introducedIds_cons, introducedIds_nil, MatchStep.introduces,
            stepsWFAux, MatchStep.refs, hprev, hedge]
  | some n =>
    simp only [hn] at h
    cases hg : env.get_node n with
    | error e => simp only [hg] at h; cases h
    | ok o =>
      cases o with
      | some id0 =>
        simp only [hg] at h
        simp only [Except.ok.injEq, Prod.mk.injEq] at h
        obtain ⟨h1, h2, h3⟩ := h
        subst h1; subst h2; subst h3
        have hmem : id0 ∈ intro := by
          have := lookupNames_mem env.names n _ (get_node_ok_some env n id0 hg)
          simpa [NamedValue.id] using hinv.2.2 _ this
        refine ⟨?_, ?_, ?_, EnvLe.rfl env⟩
        · simpa [introducedIds_cons, introducedIds_nil, MatchStep.introduces]
            using hinv
        · simp [introducedIds_cons, introducedIds_nil, MatchStep.introduces, hmem]
        · cases dir <;>
            simp [stepsWFAux, MatchStep.refs, Filter.refs, Filter.or, Filter.and,
              hprev, hedge, hmem]
      | none =>
        simp only [hg] at h
        have hl : env.lookup n = none := get_node_ok_none env n hg
        simp only [create_node_of_none env n hl] at h
        simp only [Except.ok.injEq, Prod.mk.injEq] at h
        obtain ⟨h1, h2, h3⟩ := h
        subst h1; subst h2; subst h3
        refine ⟨?_, ?_, ?_,
          ⟨Nat.le_succ _, fun m v hv => lookupNames_insert env.names n m _ v hl hv⟩⟩ <;>
          cases dir <;>
            first
            | simpa [introducedIds_cons, introducedIds_nil, MatchStep.introduces]
                using Inv.extend_bind env intro n (NamedValue.Node env.next_name) hinv rfl
            | simp [introducedIds_cons, introducedIds_nil, MatchStep.introduces,
                stepsWFAux, MatchStep.refs, hprev, hedge]

/-- Invariant propagation through one segment. -/
lemma compileSegment_inv (env env' : BuildEnv) (prev : Nat)
    (seg : EdgePat × NodePat) (id : Nat) (s : List MatchStep) (intro : List Nat)
    (hinv : Inv env intro) (hprev : prev ∈ intro)
    (h : compileSegment env prev seg = .ok (id, env', s)) :
    Inv env' (intro ++ introducedIds s) ∧ id ∈ intro ++ introducedIds s ∧
      stepsWFAux intro s = true ∧ EnvLe env env' := by
  unfold compileSegment at h
  cases he : compileEdgePart env prev seg.1 with
  | error e => simp only [he] at h; cases h
  | ok r =>
    obtain ⟨eid, env1, s1⟩ := r
    simp only [he] at h
    cases hn : compileNodePart env1 prev eid seg.1.direction seg.2 with
    | error e => simp only [hn] at h; cases h
    | ok r2 =>
      obtain ⟨nid, env2, s3⟩ := r2
      simp only [hn, Except.ok.injEq, Prod.mk.injEq] at h
      obtain ⟨h1, h2, h3⟩ := h
      subst h1; subst h2
      obtain ⟨hinv1, heid, hwf1, hle1⟩ :=
        compileEdgePart_inv env env1 prev seg.1 eid s1 intro hinv hprev he
      have hprev1 : prev ∈ intro ++ introducedIds s1 := List.mem_append_left _ hprev
      obtain ⟨hinv2, hnid, hwf3, hle2⟩ :=
        compileNodePart_inv env1 env2 prev eid seg.1.direction seg.2 nid s3
          (intro ++ introducedIds s1) hinv1 hprev1 heid hn
      subst h3
      refine ⟨?_, ?_, ?_, EnvLe.trans hle1 hle2⟩
      · simpa [introducedIds_append, edgeLabelSteps_intro, nodeLabelSteps_intro,
          List.append_assoc] using hinv2
      · simpa [introducedIds_append, edgeLabelSteps_intro, nodeLabelSteps_intro,
          List.append_assoc] using hnid
      · have hnid' : nid ∈ (intro ++ introducedIds s1) ++ introducedIds s3 := hnid
        simp [stepsWFAux_append, introducedIds_append, edgeLabelSteps_intro,
          nodeLabelSteps_intro, hwf1, List.append_assoc]
        refine ⟨?_, ?_, ?_⟩
        · exact edgeLabelSteps_wf eid seg.1.ann.label _ (by simpa using heid)
        · simpa [List.append_assoc] using hwf3
        · exact nodeLabelSteps_wf nid seg.2.ann.label _ (by simpa [List.append_assoc] using hnid')

/-- Invariant propagation through a clause's segment chain. -/
lemma compileSegments_inv (segs : List (EdgePat × NodePat)) (env env' : BuildEnv)
    (prev : Nat) (id : Nat) (s : List MatchStep) (intro : List Nat)
    (hinv : Inv env intro) (hprev : prev ∈ intro)
    (h : compileSegments env prev segs = .ok (id, env', s)) :
    Inv env' (intro ++ introducedIds s) ∧ id ∈ intro ++ introducedIds s ∧
      stepsWFAux intro s = true ∧ EnvLe env env' := by
  induction segs generalizing env prev intro s with
  | nil =>
    unfold compileSegments at h
    simp only [Except.ok.injEq, Prod.mk.injEq] at h
    obtain ⟨h1, h2, h3⟩ := h
    subst h1; subst h2; subst h3
    exact ⟨by simpa [introducedIds_nil] using hinv,
      by simpa [introducedIds_nil] using hprev, rfl, EnvLe.rfl env⟩
  | cons seg rest ih =>
    unfold compileSegments at h
    cases hs : compileSegment env prev seg with
    | error e => simp only [hs] at h; cases h
    | ok r =>
      obtain ⟨p1, env1, s1⟩ := r
      simp only [hs] at h
      cases hr : compileSegments env1 p1 rest with
      | error e => simp only [hr] at h; cases h
      | ok r2 =>
        obtain ⟨p2, env2, s2⟩ := r2
        simp only [hr, Except.ok.injEq, Prod.mk.injEq] at h
        obtain ⟨h1, h2, h3⟩ := h
        subst h1; subst h2; subst h3
        obtain ⟨hinv1, hp1, hwf1, hle1⟩ :=
          compileSegment_inv env env1 prev seg p1 s1 intro hinv hprev hs
        obtain ⟨hinv2, hp2, hwf2, hle2⟩ :=
          ih env1 p1 s2 (intro ++ introducedIds s1) hinv1 hp1 hr
        refine ⟨?_, ?_, ?_, EnvLe.trans hle1 hle2⟩
        · simpa [introducedIds_append, List.append_assoc] using hinv2
        · simpa [introducedIds_append, List.append_assoc] using hp2
        · simp [stepsWFAux_append, introducedIds_append, hwf1]
          simpa [List.append_assoc] using hwf2

/-- Invariant propagation through one MATCH clause. -/
lemma compileClause_inv (env env' : BuildEnv) (c : MatchClause)
    (s : List MatchStep) (intro : List Nat)
    (hinv : Inv env intro)
    (h : compileClause env c = .ok (env', s)) :
    Inv env' (intro ++ introducedIds s) ∧ stepsWFAux intro s = true ∧
      EnvLe env env' := by
  unfold compileClause at h
  cases hs : compileStartNode env c.start with
  | error e => simp only [hs] at h; cases h
  | ok r =>
    obtain ⟨prev, env1, s0⟩ := r
    simp only [hs] at h
    cases hr : compileSegments env1 prev c.edges with
    | error e => simp only [hr] at h; cases h
    | ok r2 =>
      obtain ⟨p2, env2, s1⟩ := r2
      simp only [hr, Except.ok.injEq, Prod.mk.injEq] at h
      obtain ⟨h1, h2⟩ := h
      subst h1; subst h2
      obtain ⟨hinv0, hprev, hwf0, hle0⟩ :=
        compileStartNode_inv env env1 c.start prev s0 intro hinv hs
      obtain ⟨hinv1, hp1, hwf1, hle1⟩ :=
        compileSegments_inv c.edges env1 env2 prev p2 s1
          (intro ++ introducedIds s0) hinv0 hprev hr
      refine ⟨?_, ?_, EnvLe.trans hle0 hle1⟩
      · simpa [introducedIds_append, nodeLabelSteps_intro, List.append_assoc]
          using hinv1
      · simp [stepsWFAux_append, introducedIds_append, nodeLabelSteps_intro, hwf0]
        refine ⟨?_, ?_⟩
        · exact nodeLabelSteps_wf prev c.start.ann.label _ hprev
        · simpa [List.append_assoc] using hwf1

/-- Invariant propagation through the whole clause list. -/
lemma compileClauses_inv (cs : List MatchClause) (env env' : BuildEnv)
    (s : List MatchStep) (intro : List Nat)
    (hinv : Inv env intro)
    (h : compileClauses env cs = .ok (env', s)) :
    Inv env' (intro ++ introducedIds s) ∧ stepsWFAux intro s = true ∧
      EnvLe env env' := by
  induction cs generalizing env intro s with
  | nil =>
    unfold compileClauses at h
    simp only [Except.ok.injEq, Prod.mk.injEq] at h
    obtain ⟨h1, h2⟩ := h
    subst h1; subst h2
    exact ⟨by simpa [introducedIds_nil] using hinv, rfl, EnvLe.rfl env⟩
  | cons c rest ih =>
    unfold compileClauses at h
    cases hc : compileClause env c with
    | error e => simp only [hc] at h; cases h
    | ok r =>
      obtain ⟨env1, s1⟩ := r
      simp only [hc] at h
      cases hr : compileClauses env1 rest with
      | error e => simp only [hr] at h; cases h
      | ok r2 =>
        obtain ⟨env2, s2⟩ := r2
        simp only [hr, Except.ok.injEq, Prod.mk.injEq] at h
        obtain ⟨h1, h2⟩ := h
        subst h1; subst h2
        obtain ⟨hinv1, hwf1, hle1⟩ := compileClause_inv env env1 c s1 intro hinv hc
        obtain ⟨hinv2, hwf2, hle2⟩ :=
          ih env1 s2 (intro ++ introducedIds s1) hinv1 hr
        refine ⟨?_, ?_, EnvLe.trans hle1 hle2⟩
        · simpa [introducedIds_append, List.append_assoc] using hinv2
        · simp [stepsWFAux_append, introducedIds_append, hwf1]
          simpa [List.append_assoc] using hwf2

/-- A successful `QueryPlan::new` comes from a successful clause
compilation producing exactly the plan's steps. -/
lemma new_ok_elim (q : Query) (plan : QueryPlan)
    (h : QueryPlan.new q = .ok plan) :
    ∃ env, compileClauses BuildEnv.empty q.match_clauses = .ok (env, plan.steps) ∧
      resolveReturns env q.return_clause = .ok plan.returns := by
  unfold QueryPlan.new at h
  by_cases h1 : (q.match_clauses.isEmpty && !q.where_clauses.isEmpty) = true
  · rw [if_pos h1] at h; cases h
  · rw [if_neg h1] at h
    by_cases h2 : (q.match_clauses.isEmpty && !q.return_clause.isEmpty) = true
    · rw [if_pos h2] at h; cases h
    · rw [if_neg h2] at h
      cases hc : compileClauses BuildEnv.empty q.match_clauses with
      | error e => simp only [hc] at h; cases h
      | ok r =>
        obtain ⟨env, steps⟩ := r
        simp only [hc] at h
        cases hres : resolveReturns env q.return_clause with
        | error e => simp only [hres] at h; cases h
        | ok returns =>
          simp only [hres, Except.ok.injEq] at h
          subst h
          exact ⟨env, rfl, hres⟩

/-- The invariant at a successful compilation's end. -/
lemma new_ok_inv (q : Query) (plan : QueryPlan)
    (h : QueryPlan.new q = .ok plan) :
    stepsWF plan.steps = true ∧
      List.Pairwise (· < ·) (introducedIds plan.steps) := by
  obtain ⟨env, hc, -⟩ := new_ok_elim q plan h
  have hinv0 : Inv BuildEnv.empty [] :=
    ⟨by simp, List.Pairwise.nil, by simp [BuildEnv.empty]⟩
  obtain ⟨hinv, hwf, _⟩ :=
    compileClauses_inv q.match_clauses BuildEnv.empty env plan.steps [] hinv0 hc
  exact ⟨hwf, by simpa using hinv.2.1⟩

/-- Binding effect of start-node resolution: the environment only grows, the
node's name (if any) ends up bound to the returned identifier as a Node, and
names it does not mention stay unbound. -/
lemma compileStartNode_props (env env1 : BuildEnv) (start : NodePat) (id : Nat)
    (s : List MatchStep)
    (h : compileStartNode env start = .ok (id, env1, s)) :
    EnvLe env env1 ∧
      (∀ n, start.ann.name = some n → env1.lookup n = some (NamedValue.Node id)) ∧
      (∀ n, start.ann.name ≠ some n → env.lookup n = none → env1.lookup n = none) := by
  unfold compileStartNode at h
  cases hn : start.ann.name with
  | none =>
    simp only [hn, BuildEnv.alloc, Except.ok.injEq, Prod.mk.injEq] at h
    obtain ⟨h1, h2, h3⟩ := h
    subst h1; subst h2; subst h3
    refine ⟨⟨Nat.le_succ _, fun _ _ hv => hv⟩, ?_, fun n _ hl => hl⟩
    intro n hn'
    cases hn'
  | some m =>
    simp only [hn] at h
    cases hg : env.get_node m with
    | error e => simp only [hg] at h; cases h
    | ok o =>
      cases o with
      | some id0 =>
        simp only [hg, Except.ok.injEq, Prod.mk.injEq] at h
        obtain ⟨h1, h2, h3⟩ := h
        subst h1; subst h2; subst h3
        refine ⟨EnvLe.rfl env, ?_, fun n _ hl => hl⟩
        intro n hn'
        cases hn'
        exact get_node_ok_some env m id0 hg
      | none =>
        have hl : env.lookup m = none := get_node_ok_none env m hg
        simp only [hg, create_node_of_none env m hl, Except.ok.injEq,
          Prod.mk.injEq] at h
        obtain ⟨h1, h2, h3⟩ := h
        subst h1; subst h2; subst h3
        refine ⟨⟨Nat.le_succ _,
          fun n v hv => lookupNames_insert env.names m n _ v hl hv⟩, ?_, ?_⟩
        · intro n hn'
          cases hn'
          simp [BuildEnv.lookup, lookupNames]
        · intro n hne hl'
          have hmn : m ≠ n := by
            intro hc
            exact hne (by rw [hc])
          simp [BuildEnv.lookup, lookupNames, hmn, hl'] at hl' ⊢
          exact hl'

/-- Binding effect of edge resolution. -/
lemma compileEdgePart_props (env env1 : BuildEnv) (prev : Nat) (edge : EdgePat)
    (id : Nat) (s : List MatchStep)
    (h : compileEdgePart env prev edge = .ok (id, env1, s)) :
    EnvLe env env1 ∧
      (∀ n, edge.ann.name = some n → env1.lookup n = some (NamedValue.Edge id)) ∧
      (∀ n, edge.ann.name ≠ some n → env.lookup n = none → env1.lookup n = none) := by
  unfold compileEdgePart at h
  cases hn : edge.ann.name with
  | none =>
    simp only [hn, BuildEnv.alloc, Except.ok.injEq, Prod.mk.injEq] at h
    obtain ⟨h1, h2, h3⟩ := h
    subst h1; subst h2; subst h3
    refine ⟨⟨Nat.le_succ _, fun _ _ hv => hv⟩, ?_, fun n _ hl => hl⟩
    intro n hn'
    cases hn'
  | some m =>
    simp only [hn] at h
    cases hg : env.get_edge m with
    | error e => simp only [hg] at h; cases h
    | ok o =>
      cases o with
      | some id0 =>
        simp only [hg, Except.ok.injEq, Prod.mk.injEq] at h
        obtain ⟨h1, h2, h3⟩ := h
        subst h1; subst h2; subst h3
        refine ⟨EnvLe.rfl env, ?_, fun n _ hl => hl⟩
        intro n hn'
        cases hn'
        exact get_edge_ok_some env m id0 hg
      | none =>
        have hl : env.lookup m = none := get_edge_ok_none env m hg
        simp only [hg, create_edge_of_none env m hl, Except.ok.injEq,
          Prod.mk.injEq] at h
        obtain ⟨h1, h2, h3⟩ := h
        subst h1; subst h2; subst h3
        refine ⟨⟨Nat.le_succ _,
          fun n v hv => lookupNames_insert env.names m n _ v hl hv⟩, ?_, ?_⟩
        · intro n hn'
          cases hn'
          simp [BuildEnv.lookup, lookupNames]
        · intro n hne hl'
          have hmn : m ≠ n := by
            intro hc
            exact hne (by rw [hc])
          simp [BuildEnv.lookup, lookupNames, hmn, hl'] at hl' ⊢
          exact hl'

/-- Binding effect of end-node resolution. -/
lemma compileNodePart_props (env env1 : BuildEnv) (prev edge_id : Nat)
    (dir : Direction) (node : NodePat) (id : Nat) (s : List MatchStep)
    (h : compileNodePart env prev edge_id dir node = .ok (id, env1, s)) :
    EnvLe env env1 ∧
      (∀ n, node.ann.name = some n → env1.lookup n = some (NamedValue.Node id)) ∧
      (∀ n, node.ann.name ≠ some n → env.lookup n = none → env1.lookup n = none) := by
  unfold compileNodePart at h
  cases hn : node.ann.name with
  | none =>
    simp only [hn, BuildEnv.alloc, Except.ok.injEq, Prod.mk.injEq] at h
    obtain ⟨h1, h2, h3⟩ := h
    subst h1; subst h2; subst h3
    refine ⟨⟨Nat.le_succ _, fun _ _ hv => hv⟩, ?_, fun n _ hl => hl⟩
    intro n hn'
    cases hn'
  | some m =>
    simp only [hn] at h
    cases hg : env.get_node m with
    | error e => simp only [hg] at h; cases h
    | ok o =>
      cases o with
      | some id0 =>
        simp only [hg, Except.ok.injEq, Prod.mk.injEq] at h
        obtain ⟨h1, h2, h3⟩ := h
        subst h1; subst h2; subst h3
        refine ⟨EnvLe.rfl env, ?_, fun n _ hl => hl⟩
        intro n hn'
        cases hn'
        exact get_node_ok_some env m id0 hg
      | none =>
        have hl : env.lookup m = none := get_node_ok_none env m hg
        simp only [hg, create_node_of_none env m hl, Except.ok.injEq,
          Prod.mk.injEq] at h
        obtain ⟨h1, h2, h3⟩ := h
        subst h1; subst h2; subst h3
        refine ⟨⟨Nat.le_succ _,
          fun n v hv => lookupNames_insert env.names m n _ v hl hv⟩, ?_, ?_⟩
        · intro n hn'
          cases hn'
          simp [BuildEnv.lookup, lookupNames]
        · intro n hne hl'
          have hmn : m ≠ n := by
            intro hc
            exact hne (by rw [hc])
          simp [BuildEnv.lookup, lookupNames, hmn, hl'] at hl' ⊢
          exact hl'

/-- Binding effect of one segment: edge and end-node names end up bound with
their kinds; unmentioned names stay unbound. -/
lemma compileSegment_props (env env2 : BuildEnv) (prev : Nat)
    (seg : EdgePat × NodePat) (nid : Nat) (s : List MatchStep)
    (h : compileSegment env prev seg = .ok (nid, env2, s)) :
    EnvLe env env2 ∧
      (∀ n, seg.1.ann.name = some n →
        ∃ j, env2.lookup n = some (NamedValue.Edge j)) ∧
      (∀ n, seg.2.ann.name = some n →
        ∃ j, env2.lookup n = some (NamedValue.Node j)) ∧
      (∀ n, seg.1.ann.name ≠ some n → seg.2.ann.name ≠ some n →
        env.lookup n = none → env2.lookup n = none) := by
  unfold compileSegment at h
  cases he : compileEdgePart env prev seg.1 with
  | error e => simp only [he] at h; cases h
  | ok r =>
    obtain ⟨eid, env1, s1⟩ := r
    simp only [he] at h
    cases hn : compileNodePart env1 prev eid seg.1.direction seg.2 with
    | error e => simp only [hn] at h; cases h
    | ok r2 =>
      obtain ⟨nid2, env2', s3⟩ := r2
      simp only [hn, Except.ok.injEq, Prod.mk.injEq] at h
      obtain ⟨h1, h2, h3⟩ := h
      subst h1; subst h2
      obtain ⟨hle1, hb1, hnb1⟩ :=
        compileEdgePart_props env env1 prev seg.1 eid s1 he
      obtain ⟨hle2, hb2, hnb2⟩ :=
        compileNodePart_props env1 env2' prev eid seg.1.direction seg.2 nid2 s3 hn
      refine ⟨EnvLe.trans hle1 hle2, ?_, ?_, ?_⟩
      · intro n hname
        exact ⟨eid, hle2.2 n _ (hb1 n hname)⟩
      · intro n hname
        exact ⟨nid2, hb2 n hname⟩
      · intro n hne hne2 hl
        exact hnb2 n hne2 (hnb1 n hne hl)

/-- Binding effect of a segment chain. -/
lemma compileSegments_props (segs : List (EdgePat × NodePat))
    (env env' : BuildEnv) (prev id : Nat) (s : List MatchStep)
    (h : compileSegments env prev segs = .ok (id, env', s)) :
    EnvLe env env' ∧
      (∀ n seg, seg ∈ segs → seg.1.ann.name = some n →
        ∃ j, env'.lookup n = some (NamedValue.Edge j)) ∧
      (∀ n seg, seg ∈ segs → seg.2.ann.name = some n →
        ∃ j, env'.lookup n = some (NamedValue.Node j)) ∧
      (∀ n, (∀ seg ∈ segs, seg.1.ann.name ≠ some n ∧ seg.2.ann.name ≠ some n) →
        env.lookup n = none → env'.lookup n = none) := by
  induction segs generalizing env prev s with
  | nil =>
    unfold compileSegments at h
    simp only [Except.ok.injEq, Prod.mk.injEq] at h
    obtain ⟨h1, h2, h3⟩ := h
    subst h1; subst h2; subst h3
    exact ⟨EnvLe.rfl env, fun n seg hseg => absurd hseg (List.not_mem_nil seg),
      fun n seg hseg => absurd hseg (List.not_mem_nil seg),
      fun n _ hl => hl⟩
  | cons seg rest ih =>
    unfold compileSegments at h
    cases hs : compileSegment env prev seg with
    | error e => simp only [hs] at h; cases h
    | ok r =>
      obtain ⟨p1, env1, s1⟩ := r
      simp only [hs] at h
      cases hr : compileSegments env1 p1 rest with
      | error e => simp only [hr] at h; cases h
      | ok r2 =>
        obtain ⟨p2, env2, s2⟩ := r2
        simp only [hr, Except.ok.injEq, Prod.mk.injEq] at h
        obtain ⟨h1, h2, h3⟩ := h
        subst h1; subst h2; subst h3
        obtain ⟨hle1, hbe1, hbn1, hnb1⟩ :=
          compileSegment_props env env1 prev seg p1 s1 hs
        obtain ⟨hle2, hbe2, hbn2, hnb2⟩ := ih env1 p1 s2 hr
        refine ⟨EnvLe.trans hle1 hle2, ?_, ?_, ?_⟩
        · intro n sg hsg hname
          rcases List.mem_cons.mp hsg with hsg | hsg
          · subst hsg
            obtain ⟨j, hj⟩ := hbe1 n hname
            exact ⟨j, hle2.2 n _ hj⟩
          · exact hbe2 n sg hsg hname
        · intro n sg hsg hname
          rcases List.mem_cons.mp hsg with hsg | hsg
          · subst hsg
            obtain ⟨j, hj⟩ := hbn1 n hname
            exact ⟨j, hle2.2 n _ hj⟩
          · exact hbn2 n sg hsg hname
        · intro n hall hl
          have hhead := hall seg (List.mem_cons_self _ _)
          exact hnb2 n (fun sg hsg => hall sg (List.mem_cons_of_mem _ hsg))
            (hnb1 n hhead.1 hhead.2 hl)

/-- Membership in `clauseNodeNames` unfolded. -/
lemma mem_clauseNodeNames (c : MatchClause) (n : String) :
    n ∈ clauseNodeNames c ↔
      c.start.ann.name = some n ∨ ∃ seg ∈ c.edges, seg.2.ann.name = some n := by
  simp [clauseNodeNames, List.mem_filterMap, Option.mem_toList, Option.mem_def]

/-- Membership in `clauseEdgeNames` unfolded. -/
lemma mem_clauseEdgeNames (c : MatchClause) (n : String) :
    n ∈ clauseEdgeNames c ↔ ∃ seg ∈ c.edges, seg.1.ann.name = some n := by
  simp [clauseEdgeNames, List.mem_filterMap]

/-- Binding effect of one clause in terms of its name sets. -/
lemma compileClause_props (env env' : BuildEnv) (c : MatchClause)
    (s : List MatchStep)
    (h : compileClause env c = .ok (env', s)) :
    EnvLe env env' ∧
      (∀ n, n ∈ clauseNodeNames c →
        ∃ j, env'.lookup n = some (NamedValue.Node j)) ∧
      (∀ n, n ∈ clauseEdgeNames c →
        ∃ j, env'.lookup n = some (NamedValue.Edge j)) ∧
      (∀ n, n ∉ clauseNodeNames c → n ∉ clauseEdgeNames c →
        env.lookup n = none → env'.lookup n = none) := by
  unfold compileClause at h
  cases hs : compileStartNode env c.start with
  | error e => simp only [hs] at h; cases h
  | ok r =>
    obtain ⟨prev, env1, s0⟩ := r
    simp only [hs] at h
    cases hr : compileSegments env1 prev c.edges with
    | error e => simp only [hr] at h; cases h
    | ok r2 =>
      obtain ⟨p2, env2, s1⟩ := r2
      simp only [hr, Except.ok.injEq, Prod.mk.injEq] at h
      obtain ⟨h1, h2⟩ := h
      subst h1; subst h2
      obtain ⟨hle0, hb0, hnb0⟩ :=
        compileStartNode_props env env1 c.start prev s0 hs
      obtain ⟨hle1, hbe1, hbn1, hnb1⟩ :=
        compileSegments_props c.edges env1 env2 prev p2 s1 hr
      refine ⟨EnvLe.trans hle0 hle1, ?_, ?_, ?_⟩
      · intro n hmem
        rcases (mem_clauseNodeNames c n).mp hmem with hstart | ⟨seg, hseg, hname⟩
        · exact ⟨prev, hle1.2 n _ (hb0 n hstart)⟩
        · exact hbn1 n seg hseg hname
      · intro n hmem
        obtain ⟨seg, hseg, hname⟩ := (mem_clauseEdgeNames c n).mp hmem
        exact hbe1 n seg hseg hname
      · intro n hnn hne hl
        have hstart : c.start.ann.name ≠ some n := by
          intro hc
          exact hnn ((mem_clauseNodeNames c n).mpr (Or.inl hc))
        refine hnb1 n ?_ (hnb0 n hstart hl)
        intro sg hsg
        constructor
        · intro hc
          exact hne ((mem_clauseEdgeNames c n).mpr ⟨sg, hsg, hc⟩)
        · intro hc
          exact hnn ((mem_clauseNodeNames c n).mpr (Or.inr ⟨sg, hsg, hc⟩))

/-- Binding effect of the whole clause list. -/
lemma compileClauses_props (cs : List MatchClause) (env env' : BuildEnv)
    (s : List MatchStep)
    (h : compileClauses env cs = .ok (env', s)) :
    EnvLe env env' ∧
      (∀ n c, c ∈ cs → n ∈ clauseNodeNames c →
        ∃ j, env'.lookup n = some (NamedValue.Node j)) ∧
      (∀ n c, c ∈ cs → n ∈ clauseEdgeNames c →
        ∃ j, env'.lookup n = some (NamedValue.Edge j)) ∧
      (∀ n, (∀ c ∈ cs, n ∉ clauseNodeNames c ∧ n ∉ clauseEdgeNames c) →
        env.lookup n = none → env'.lookup n = none) := by
  induction cs generalizing env s with
  | nil =>
    unfold compileClauses at h
    simp only [Except.ok.injEq, Prod.mk.injEq] at h
    obtain ⟨h1, h2⟩ := h
    subst h1; subst h2
    exact ⟨EnvLe.rfl env, fun n c hc => absurd hc (List.not_mem_nil c),
      fun n c hc => absurd hc (List.not_mem_nil c), fun n _ hl => hl⟩
  | cons c rest ih =>
    unfold compileClauses at h
    cases hc : compileClause env c with
    | error e => simp only [hc] at h; cases h
    | ok r =>
      obtain ⟨env1, s1⟩ := r
      simp only [hc] at h
      cases hr : compileClauses env1 rest with
      | error e => simp only [hr] at h; cases h
      | ok r2 =>
        obtain ⟨env2, s2⟩ := r2
        simp only [hr, Except.ok.injEq, Prod.mk.injEq] at h
        obtain ⟨h1, h2⟩ := h
        subst h1; subst h2
        obtain ⟨hle1, hbn1, hbe1, hnb1⟩ :=
          compileClause_props env env1 c s1 hc
        obtain ⟨hle2, hbn2, hbe2, hnb2⟩ := ih env1 s2 hr
        refine ⟨EnvLe.trans hle1 hle2, ?_, ?_, ?_⟩
        · intro n c' hc' hmem
          rcases List.mem_cons.mp hc' with hc' | hc'
          · subst hc'
            obtain ⟨j, hj⟩ := hbn1 n hmem
            exact ⟨j, hle2.2 n _ hj⟩
          · exact hbn2 n c' hc' hmem
        · intro n c' hc' hmem
          rcases List.mem_cons.mp hc' with hc' | hc'
          · subst hc'
            obtain ⟨j, hj⟩ := hbe1 n hmem
            exact ⟨j, hle2.2 n _ hj⟩
          · exact hbe2 n c' hc' hmem
        · intro n hall hl
          have hhead := hall c (List.mem_cons_self _ _)
          exact hnb2 n (fun c' hc' => hall c' (List.mem_cons_of_mem _ hc'))
            (hnb1 n hhead.1 hhead.2 hl)

/-- Membership in `queryNodeNames` unfolded. -/
lemma mem_queryNodeNames (q : Query) (n : String) :
    n ∈ queryNodeNames q ↔ ∃ c ∈ q.match_clauses, n ∈ clauseNodeNames c := by
  simp [queryNodeNames, List.mem_flatten]

/-- Membership in `queryEdgeNames` unfolded. -/
lemma mem_queryEdgeNames (q : Query) (n : String) :
    n ∈ queryEdgeNames q ↔ ∃ c ∈ q.match_clauses, n ∈ clauseEdgeNames c := by
  simp [queryEdgeNames, List.mem_flatten]

/-- A RETURN list containing an unbound name fails to resolve. -/
lemma resolveReturns_err (env : BuildEnv) (names : List String) (n : String)
    (hn : n ∈ names) (hl : env.lookup n = none) :
    resolveReturns env names = .error .Todo := by
  induction names with
  | nil => cases hn
  | cons m rest ih =>
    rcases List.mem_cons.mp hn with hm | hm
    · subst hm
      simp [resolveReturns, hl]
    · unfold resolveReturns
      cases hml : env.lookup m with
      | none => rfl
      | some v => simp [ih hm]

/-- A RETURN list whose names are all bound resolves to their lookups, in
order, duplicates preserved. -/
lemma resolveReturns_ok (env : BuildEnv) (names : List String)
    (hall : ∀ n ∈ names, (env.lookup n).isSome) :
    resolveReturns env names = .ok (names.filterMap env.lookup) := by
  induction names with
  | nil => rfl
  | cons m rest ih =>
    have hm := hall m (List.mem_cons_self _ _)
    cases hml : env.lookup m with
    | none => rw [hml] at hm; cases hm
    | some v =>
      have hrest := ih (fun n hn => hall n (List.mem_cons_of_mem _ hn))
      simp [resolveReturns, hml, hrest, List.filterMap_cons]

/-- C2: in every plan `QueryPlan::new` produces, every identifier referenced
by any step (filter operand or load anchor) was introduced by a strictly
earlier Load step of the same plan. -/
theorem c2_forward_references_only (q : Query) (plan : QueryPlan)
    (h : QueryPlan.new q = .ok plan) : stepsWF plan.steps = true :=
  (new_ok_inv q plan h).1

/-- Witness for C2 at `MATCH (a)-[e]->(b) RETURN a,e,b`. -/
theorem c2_forward_references_only_witness :
    stepsWF [MatchStep.LoadAnyNode 0, MatchStep.LoadOriginEdge 1 0,
      MatchStep.LoadTargetNode 2 1] = true :=
  c2_forward_references_only exQueryC1
    ⟨[MatchStep.LoadAnyNode 0, MatchStep.LoadOriginEdge 1 0,
      MatchStep.LoadTargetNode 2 1],
     [NamedValue.Node 0, NamedValue.Edge 1, NamedValue.Node 2]⟩ rfl

/-- C9: the identifiers introduced by the Load steps of any successful plan
come from the compilation's monotonic counter — they appear in strictly
increasing order; in particular no two Load steps introduce the same
identifier. -/
theorem c9_unique_monotonic_ids (q : Query) (plan : QueryPlan)
    (h : QueryPlan.new q = .ok plan) :
    List.Pairwise (· < ·) (introducedIds plan.steps) ∧
      (introducedIds plan.steps).Nodup :=
  ⟨(new_ok_inv q plan h).2,
   List.Pairwise.imp Nat.ne_of_lt (new_ok_inv q plan h).2⟩

/-- Witness for C9 at `MATCH (a)-[e]->(b) RETURN a,e,b`. -/
theorem c9_unique_monotonic_ids_witness :
    List.Pairwise (· < ·) (introducedIds [MatchStep.LoadAnyNode 0,
      MatchStep.LoadOriginEdge 1 0, MatchStep.LoadTargetNode 2 1]) ∧
      (introducedIds [MatchStep.LoadAnyNode 0, MatchStep.LoadOriginEdge 1 0,
        MatchStep.LoadTargetNode 2 1]).Nodup :=
  c9_unique_monotonic_ids exQueryC1
    ⟨[MatchStep.LoadAnyNode 0, MatchStep.LoadOriginEdge 1 0,
      MatchStep.LoadTargetNode 2 1],
     [NamedValue.Node 0, NamedValue.Edge 1, NamedValue.Node 2]⟩ rfl

/-- C4 amended: reusing a variable name (same kind) never produces a second
Load step for its identifier (the introduced identifiers of a plan are
pairwise distinct), and a reuse in edge position or in segment-end-node
position emits exactly one join-filter step and no Load; but a reuse as a
clause's *start* node emits no step at all (no Load and no filter), so
"each such reuse produces a filter step" holds only away from start-node
position. -/
theorem c4_amended :
    (∀ q plan, QueryPlan.new q = .ok plan → (introducedIds plan.steps).Nodup) ∧
    (∀ (env : BuildEnv) (prev : Nat) (edge : EdgePat) (n : String) (id : Nat),
      edge.ann.name = some n → env.get_edge n = .ok (some id) →
      compileEdgePart env prev edge =
        .ok (id, env,
          [MatchStep.Filter (match edge.direction with
            | .Left => Filter.IsTarget prev id
            | .Right => Filter.IsOrigin prev id
            | .Either => Filter.Or (Filter.IsOrigin prev id)
                (Filter.IsTarget prev id))])) ∧
    (∀ (env : BuildEnv) (prev edge_id : Nat) (dir : Direction) (node : NodePat)
      (n : String) (id : Nat),
      node.ann.name = some n → env.get_node n = .ok (some id) →
      compileNodePart env prev edge_id dir node =
        .ok (id, env,
          [MatchStep.Filter (match dir with
            | .Left => Filter.IsOrigin id edge_id
            | .Right => Filter.IsTarget id edge_id
            | .Either => Filter.Or
                (Filter.And (Filter.IsOrigin id edge_id) (Filter.IsTarget prev edge_id))
                (Filter.And (Filter.IsTarget id edge_id)
                  (Filter.IsOrigin prev edge_id)))])) ∧
    (∀ (env : BuildEnv) (start : NodePat) (n : String) (id : Nat),
      start.ann.name = some n → env.get_node n = .ok (some id) →
      compileStartNode env start = .ok (id, env, [])) := by
  refine ⟨?_, ?_, ?_, ?_⟩
  · intro q plan h
    exact List.Pairwise.imp Nat.ne_of_lt (new_ok_inv q plan h).2
  · intro env prev edge n id hn hb
    simp [compileEdgePart, hn, hb, Filter.or]
  · intro env prev edge_id dir node n id hn hb
    simp [compileNodePart, hn, hb, Filter.or, Filter.and]
  · intro env start n id hn hb
    simp [compileStartNode, hn, hb]

/-- Witness for the amended C4: Nodup of the reuse plan's load identifiers,
a bound edge reuse emitting one join filter, a bound end-node reuse
emitting one join filter, and a bound start-node reuse emitting nothing. -/
theorem c4_amended_witness :
    (introducedIds [MatchStep.LoadAnyNode 0]).Nodup ∧
      compileEdgePart ⟨[("e", NamedValue.Edge 0)], 1⟩ 5 ⟨⟨some "e", none⟩, .Right⟩ =
        .ok (0, ⟨[("e", NamedValue.Edge 0)], 1⟩,
          [MatchStep.Filter (Filter.IsOrigin 5 0)]) ∧
      compileNodePart ⟨[("b", NamedValue.Node 0)], 1⟩ 7 3 Direction.Either
          ⟨⟨some "b", none⟩⟩ =
        .ok (0, ⟨[("b", NamedValue.Node 0)], 1⟩,
          [MatchStep.Filter (Filter.Or
            (Filter.And (Filter.IsOrigin 0 3) (Filter.IsTarget 7 3))
            (Filter.And (Filter.IsTarget 0 3) (Filter.IsOrigin 7 3)))]) ∧
      compileStartNode ⟨[("a", NamedValue.Node 0)], 1⟩ ⟨⟨some "a", none⟩⟩ =
        .ok (0, ⟨[("a", NamedValue.Node 0)], 1⟩, []) :=
  ⟨c4_amended.1 reuseStartQuery ⟨[MatchStep.LoadAnyNode 0], []⟩ rfl,
   c4_amended.2.1 ⟨[("e", NamedValue.Edge 0)], 1⟩ 5 ⟨⟨some "e", none⟩, .Right⟩ "e" 0 rfl rfl,
   c4_amended.2.2.1 ⟨[("b", NamedValue.Node 0)], 1⟩ 7 3 Direction.Either
     ⟨⟨some "b", none⟩⟩ "b" 0 rfl rfl,
   c4_amended.2.2.2 ⟨[("a", NamedValue.Node 0)], 1⟩ ⟨⟨some "a", none⟩⟩ "a" 0 rfl rfl⟩

/-- C10: the completely empty query (no MATCH, no WHERE, empty RETURN) is
not an error: the plan has empty steps and empty returns. -/
theorem c10_empty_query_ok :
    QueryPlan.new ⟨[], [], []⟩ = .ok ⟨[], []⟩ := rfl

/-- C8: `QueryPlan::new` is a deterministic pure function: equal inputs
give identical results. -/
theorem c8_deterministic (q1 q2 : Query) (h : q1 = q2) :
    QueryPlan.new q1 = QueryPlan.new q2 := by rw [h]

/-- Witness for C8 at the concrete query `MATCH (a)-[e]->(b) RETURN a,e,b`. -/
theorem c8_deterministic_witness :
    QueryPlan.new exQueryC1 = QueryPlan.new exQueryC1 :=
  c8_deterministic exQueryC1 exQueryC1 rfl

/-- C6: with zero MATCH clauses but a WHERE clause or a nonempty RETURN
list, `QueryPlan::new` fails and produces no plan. -/
theorem c6_patternless_query_fails (q : Query)
    (h : q.match_clauses = [])
    (h2 : q.where_clauses ≠ [] ∨ q.return_clause ≠ []) :
    QueryPlan.new q = .error .Todo := by
  rcases h2 with hw | hr
  · have hw' : q.where_clauses.isEmpty = false := by
      cases hq : q.where_clauses with
      | nil => exact absurd hq hw
      | cons a l => rfl
    simp [QueryPlan.new, h, hw']
  · have hr' : q.return_clause.isEmpty = false := by
      cases hq : q.return_clause with
      | nil => exact absurd hq hr
      | cons a l => rfl
    by_cases hw : q.where_clauses = []
    · simp [QueryPlan.new, h, hw, hr']
    · have hw' : q.where_clauses.isEmpty = false := by
        cases hq : q.where_clauses with
        | nil => exact absurd hq hw
        | cons a l => rfl
      simp [QueryPlan.new, h, hw']

/-- Witness for C6: `RETURN x` with no MATCH clause fails. -/
theorem c6_patternless_query_fails_witness :
    QueryPlan.new ⟨[], [], ["x"]⟩ = .error .Todo :=
  c6_patternless_query_fails ⟨[], [], ["x"]⟩ rfl (Or.inr (by simp))

/-- C3: a segment end node that is named and already bound, under an
`Either`-direction edge, emits no Load and exactly the four-term filter
`Or(And(IsOrigin(node,edge), IsTarget(prev,edge)),
    And(IsTarget(node,edge), IsOrigin(prev,edge)))`. -/
theorem c3_bound_either_endpoint_filter (env : BuildEnv) (prev edge_id id : Nat)
    (node : NodePat) (n : String)
    (hname : node.ann.name = some n)
    (hbound : env.get_node n = .ok (some id)) :
    compileNodePart env prev edge_id Direction.Either node =
      .ok (id, env,
        [MatchStep.Filter (Filter.Or
          (Filter.And (Filter.IsOrigin id edge_id) (Filter.IsTarget prev edge_id))
          (Filter.And (Filter.IsTarget id edge_id) (Filter.IsOrigin prev edge_id)))]) := by
  simp [compileNodePart, hname, hbound, Filter.or, Filter.and]

/-- Witness for C3 at a concrete environment binding `x` to node 5. -/
theorem c3_bound_either_endpoint_filter_witness :
    compileNodePart ⟨[("x", NamedValue.Node 5)], 6⟩ 0 1 Direction.Either ⟨⟨some "x", none⟩⟩ =
      .ok (5, ⟨[("x", NamedValue.Node 5)], 6⟩,
        [MatchStep.Filter (Filter.Or
          (Filter.And (Filter.IsOrigin 5 1) (Filter.IsTarget 0 1))
          (Filter.And (Filter.IsTarget 5 1) (Filter.IsOrigin 0 1)))]) :=
  c3_bound_either_endpoint_filter ⟨[("x", NamedValue.Node 5)], 6⟩ 0 1 5
    ⟨⟨some "x", none⟩⟩ "x" rfl rfl

/-- C1: for any single-clause query `MATCH (na)-[ne]->(nb) RETURN na,ne,nb`
with three distinct, previously unbound names and no labels, the plan is
exactly `[LoadAnyNode 0, LoadOriginEdge 1 0, LoadTargetNode 2 1]` with
returns `[Node 0, Edge 1, Node 2]` — the identifiers of the start node,
edge, and end node, in that order. -/
theorem c1_single_clause_plan (na ne nb : String)
    (h1 : na ≠ ne) (h2 : na ≠ nb) (h3 : ne ≠ nb) :
    QueryPlan.new
      ⟨[⟨⟨⟨some na, none⟩⟩,
         [(⟨⟨some ne, none⟩, Direction.Right⟩, ⟨⟨some nb, none⟩⟩)]⟩],
       [], [na, ne, nb]⟩ =
      .ok ⟨[MatchStep.LoadAnyNode 0, MatchStep.LoadOriginEdge 1 0,
            MatchStep.LoadTargetNode 2 1],
           [NamedValue.Node 0, NamedValue.Edge 1, NamedValue.Node 2]⟩ := by
  have h1' : ne ≠ na := h1.symm
  have h2' : nb ≠ na := h2.symm
  have h3' : nb ≠ ne := h3.symm
  simp [QueryPlan.new, compileClauses, compileClause, compileStartNode,
    compileSegments, compileSegment, compileEdgePart, compileNodePart,
    BuildEnv.get_node, BuildEnv.get_edge, BuildEnv.create_node,
    BuildEnv.create_edge, BuildEnv.lookup, BuildEnv.empty, BuildEnv.alloc,
    lookupNames, resolveReturns, nodeLabelSteps, edgeLabelSteps,
    h1, h2, h3, h1', h2', h3']

/-- Witness for C1 at the literal names `a`, `e`, `b`. -/
theorem c1_single_clause_plan_witness :
    QueryPlan.new exQueryC1 =
      .ok ⟨[MatchStep.LoadAnyNode 0, MatchStep.LoadOriginEdge 1 0,
            MatchStep.LoadTargetNode 2 1],
           [NamedValue.Node 0, NamedValue.Edge 1, NamedValue.Node 2]⟩ :=
  c1_single_clause_plan "a" "e" "b" (by decide) (by decide) (by decide)

/-- C4 counterexample: in `MATCH (a) MATCH (a)` the name `a` is reused with
the same kind (as the second clause's start node); the compiled plan
contains no second Load for it — but also no filter step at all, refuting
"each such reuse produces a filter step instead". -/
theorem c4_counterexample :
    QueryPlan.new reuseStartQuery = .ok ⟨[MatchStep.LoadAnyNode 0], []⟩ ∧
      hasFilterStep [MatchStep.LoadAnyNode 0] = false :=
  ⟨rfl, rfl⟩

/-- C5: a variable name occurring both in node position and in edge
position anywhere in the query's MATCH clauses makes `QueryPlan::new` fail
with the (placeholder) binding-type-conflict error; no plan is produced. -/
theorem c5_kind_conflict_fails (q : Query) (n : String)
    (h1 : n ∈ queryNodeNames q) (h2 : n ∈ queryEdgeNames q) :
    QueryPlan.new q = .error .Todo := by
  cases hres : QueryPlan.new q with
  | error e => cases e; rfl
  | ok plan =>
    exfalso
    obtain ⟨env, hc, -⟩ := new_ok_elim q plan hres
    obtain ⟨cA, hcA, hmA⟩ := (mem_queryNodeNames q n).mp h1
    obtain ⟨cB, hcB, hmB⟩ := (mem_queryEdgeNames q n).mp h2
    obtain ⟨-, hbn, hbe, -⟩ :=
      compileClauses_props q.match_clauses BuildEnv.empty env plan.steps hc
    obtain ⟨i, hi⟩ := hbn n cA hcA hmA
    obtain ⟨j, hj⟩ := hbe n cB hcB hmB
    rw [hi] at hj
    cases hj

/-- Witness for C5 at `MATCH (x)-[x]->(y)`. -/
theorem c5_kind_conflict_fails_witness :
    QueryPlan.new conflictQuery = .error .Todo :=
  c5_kind_conflict_fails conflictQuery "x" (by decide) (by decide)

/-- C7: a RETURN name never bound by any MATCH clause makes `QueryPlan::new`
fail with no plan; when clause compilation succeeds and every RETURN name is
bound, the plan's return list is the bound `NamedValue`s (kind preserved) of
the RETURN names in the order given, duplicates preserved. -/
theorem c7_return_resolution (q : Query) :
    (∀ n, n ∈ q.return_clause → n ∉ queryNodeNames q → n ∉ queryEdgeNames q →
      QueryPlan.new q = .error .Todo) ∧
    (∀ env steps,
      (q.match_clauses.isEmpty && !q.where_clauses.isEmpty) = false →
      (q.match_clauses.isEmpty && !q.return_clause.isEmpty) = false →
      compileClauses BuildEnv.empty q.match_clauses = .ok (env, steps) →
      (∀ n ∈ q.return_clause, (env.lookup n).isSome) →
      QueryPlan.new q = .ok ⟨steps, q.return_clause.filterMap env.lookup⟩) := by
  constructor
  · intro n hret hnn hne
    cases hres : QueryPlan.new q with
    | error e => cases e; rfl
    | ok plan =>
      exfalso
      obtain ⟨env, hc, hr⟩ := new_ok_elim q plan hres
      obtain ⟨-, -, -, hnb⟩ :=
        compileClauses_props q.match_clauses BuildEnv.empty env plan.steps hc
      have hnone : env.lookup n = none := by
        refine hnb n ?_ rfl
        intro c hcq
        exact ⟨fun hc' => hnn ((mem_queryNodeNames q n).mpr ⟨c, hcq, hc'⟩),
               fun hc' => hne ((mem_queryEdgeNames q n).mpr ⟨c, hcq, hc'⟩)⟩
      rw [resolveReturns_err env q.return_clause n hret hnone] at hr
      cases hr
  · intro env steps hg1 hg2 hc hall
    have hres := resolveReturns_ok env q.return_clause hall
    simp [QueryPlan.new, hg1, hg2, hc, hres]

/-- Witness for C7: `MATCH (a) RETURN z` fails; `MATCH (a)-[e]->(b)
RETURN a,e,b` resolves its return list in order with kinds preserved. -/
theorem c7_return_resolution_witness :
    QueryPlan.new returnUnboundQuery = .error .Todo ∧
      QueryPlan.new exQueryC1 =
        .ok ⟨[MatchStep.LoadAnyNode 0, MatchStep.LoadOriginEdge 1 0,
              MatchStep.LoadTargetNode 2 1],
             [NamedValue.Node 0, NamedValue.Edge 1, NamedValue.Node 2]⟩ :=
  ⟨(c7_return_resolution returnUnboundQuery).1 "z" (by decide) (by decide)
      (by decide),
   (c7_return_resolution exQueryC1).2
     ⟨[("b", NamedValue.Node 2), ("e", NamedValue.Edge 1),
       ("a", NamedValue.Node 0)], 3⟩
     [MatchStep.LoadAnyNode 0, MatchStep.LoadOriginEdge 1 0,
      MatchStep.LoadTargetNode 2 1]
     rfl rfl rfl (by decide)⟩

end CQLite
